import Mathlib

/-!
Verification of the CanCLID/feature-detector core (src/cantonesedetect/Detector.py).

The development shallowly embeds the detector: strings are lists of Unicode
characters, the regular-expression feature tables are lists of alternatives
(each alternative a nonempty sequence of character classes, tried in the order
they appear in the source pattern, with Python's leftmost, first-alternative,
non-overlapping `findall` scan), and Python floats (the four threshold
fractions, the fixed 0.95 and 0.9 constants, and the normalized-dominance
divisions) are modelled as exact rationals, which is the arithmetic the
specification itself states.  Machine integers are `Int`/`Nat`.  All
definitions are executable; recursions that follow the scan position use a
fuel argument equal to the string length so that they reduce in the kernel.
-/

unseal Rat.inv Rat.mul Rat.add Rat.sub

namespace Canto

/-- A character class: the list of characters it accepts. -/
abbrev CC := List Char

/-- One regex alternative: a nonempty sequence of character classes
(head item plus remaining items), each consuming exactly one character. -/
abbrev Alt := CC × List CC

/-- A pattern: alternatives in source order. -/
abbrev Pat := List Alt

/-- Match a sequence of one-character classes against a prefix of `s`;
return the remainder after the match. -/
def matchItems : List CC → List Char → Option (List Char)
  | [], s => some s
  | _ :: _, [] => none
  | cls :: more, x :: xs => if cls.contains x then matchItems more xs else none

/-- Match one alternative against a prefix of `s`. -/
def matchAlt (a : Alt) (s : List Char) : Option (List Char) :=
  matchItems (a.1 :: a.2) s

/-- Try the alternatives in order at the current position (Python alternation
prefers the first alternative that matches, not the longest). -/
def firstMatch : Pat → List Char → Option (List Char)
  | [], _ => none
  | a :: rest, s =>
    match matchAlt a s with
    | some r => some r
    | none => firstMatch rest s

/-- Fuel-indexed non-overlapping leftmost match count (`len(re.findall(...))`):
at each position try the alternatives; on a match count it and resume after
the matched span, otherwise advance one character. -/
def countPatF : Nat → Pat → List Char → Nat
  | 0, _, _ => 0
  | n + 1, p, s =>
    match s with
    | [] => 0
    | x :: xs =>
      match firstMatch p (x :: xs) with
      | some r => 1 + countPatF n p r
      | none => countPatF n p xs

/-- Number of non-overlapping matches of `p` in `s`. -/
def countPat (p : Pat) (s : List Char) : Nat := countPatF s.length p s

/-- Whether the pattern matches anywhere in `s` (`re.search` is not `None`). -/
def searchB (p : Pat) : List Char → Bool
  | [] => false
  | x :: xs => (firstMatch p (x :: xs)).isSome || searchB p xs

/-- Han base character: the code-point ranges and singletons of
`ALL_HAN_RE` in the source. -/
def isHanBase (c : Char) : Bool :=
  let n := c.toNat
  (0x4e00 ≤ n && n ≤ 0x9fff) || (0x3400 ≤ n && n ≤ 0x4dbf) ||
  (0x20000 ≤ n && n ≤ 0x2a6df) || (0x2a700 ≤ n && n ≤ 0x2ebef) ||
  (0x30000 ≤ n && n ≤ 0x323af) ||
  n = 0xfa0e || n = 0xfa0f || n = 0xfa11 || n = 0xfa13 || n = 0xfa14 ||
  n = 0xfa1f || n = 0xfa21 || n = 0xfa23 || n = 0xfa24 || n = 0xfa27 ||
  n = 0xfa28 || n = 0xfa29 || n = 0x3006 || n = 0x3007

/-- Variation selector (`[︀-️\U000e0100-\U000e01ef]`). -/
def isVarSel (c : Char) : Bool :=
  let n := c.toNat
  (0xfe00 ≤ n && n ≤ 0xfe0f) || (0xe0100 ≤ n && n ≤ 0xe01ef)

/-- Source `_hant_length`: number of `ALL_HAN_RE` matches — a Han base character
optionally followed by one variation selector, counted once per unit. -/
def hantLength : List Char → Nat
  | [] => 0
  | [x] => if isHanBase x then 1 else 0
  | x :: y :: ys =>
    if isHanBase x then
      if isVarSel y then 1 + hantLength ys else 1 + hantLength (y :: ys)
    else hantLength (y :: ys)

/-- Sentential delimiter class `[，。；？！⋯\n]` (`ALL_DELIMITERS_RE`). -/
def isDelim (c : Char) : Bool :=
  (['，', '。', '；', '？', '！', '⋯', '\n']).contains c

/-- Source `re.split(ALL_DELIMITERS_RE, document)`: the pieces between delimiter
characters, empty pieces included. -/
def splitDelims : List Char → List (List Char)
  | [] => [[]]
  | x :: xs =>
    if isDelim x then [] :: splitDelims xs
    else
      match splitDelims xs with
      | p :: ps => (x :: p) :: ps
      | [] => [[x]]

/-- The whitespace characters stripped by Python `str.strip()`. -/
def isPyWhite (c : Char) : Bool :=
  let n := c.toNat
  n = 0x20 || (0x9 ≤ n && n ≤ 0xd) || (0x1c ≤ n && n ≤ 0x1f) ||
  n = 0x85 || n = 0xa0 || n = 0x1680 || (0x2000 ≤ n && n ≤ 0x200a) ||
  n = 0x2028 || n = 0x2029 || n = 0x202f || n = 0x205f || n = 0x3000

/-- Truthiness of `x.strip()`: the piece contains a non-whitespace character. -/
def keepPiece (x : List Char) : Bool := x.any (fun c => ! isPyWhite c)

/-- The five quote-pair styles of `ALL_QUOTEMARKS_RE`, in source order:
`「([^「]*)」|“([^“]*)”|《([^《]*)》|【([^【]*)】|『([^『]*)』`. -/
def quoteStyles : List (Char × Char) :=
  [('「', '」'), ('“', '”'), ('《', '》'), ('【', '】'), ('『', '』')]

/-- Split a list at the last occurrence of `c`: returns `(before, after)`
with the list equal to `before ++ c :: after` and `c` not in `after`. -/
def splitLast (c : Char) : List Char → Option (List Char × List Char)
  | [] => none
  | x :: xs =>
    match splitLast c xs with
    | some (a, b) => some (x :: a, b)
    | none => if x = c then some ([], xs) else none

/-- Match one quote style `o ([^o]*) c` at the head of `s` with Python's
greedy-star backtracking: the span runs to the last `c` inside the maximal
`o`-free region after the opening mark.  Returns the captured content and
the remainder of the string after the span. -/
def tryStyle (o c : Char) : List Char → Option (List Char × List Char)
  | [] => none
  | x :: rest =>
    if x = o then
      match splitLast c (rest.takeWhile (fun ch => ch ≠ o)) with
      | some (content, _) => some (content, rest.drop (content.length + 1))
      | none => none
    else none

/-- Try the quote styles in source order at the current position. -/
def tryStyles : List (Char × Char) → List Char → Option (List Char × List Char)
  | [], _ => none
  | (o, c) :: ss, s =>
    match tryStyle o c s with
    | some r => some r
    | none => tryStyles ss s

/-- Fuel-indexed quote scan: simultaneously the `re.sub` of every matched
span by the placeholder `…` (first component) and the `re.findall` list of
captured contents in document order (second component). -/
def sepQuotesF : Nat → List Char → List Char × List (List Char)
  | 0, _ => ([], [])
  | _ + 1, [] => ([], [])
  | n + 1, x :: rest =>
    match tryStyles quoteStyles (x :: rest) with
    | some (content, rem) =>
      let p := sepQuotesF n rem
      ('…' :: p.1, content :: p.2)
    | none =>
      let p := sepQuotesF n rest
      (x :: p.1, p.2)

/-- Quote scan of a whole document. -/
def sepQuotes (s : List Char) : List Char × List (List Char) :=
  sepQuotesF s.length s

/-- Fuel-indexed `ALL_QUOTEMARKS_RE.sub("", s)`: delete every matched
quote span (marks and content). -/
def subQuotesF : Nat → List Char → List Char
  | 0, _ => []
  | _ + 1, [] => []
  | n + 1, x :: rest =>
    match tryStyles quoteStyles (x :: rest) with
    | some (_, rem) => subQuotesF n rem
    | none => x :: subQuotesF n rest

/-- Source `ALL_QUOTEMARKS_RE.sub("", s)` on a whole string. -/
def subQuotes (s : List Char) : List Char := subQuotesF s.length s

/-- Whether `ALL_QUOTEMARKS_RE` matches anywhere in the document. -/
def hasQuote : List Char → Bool
  | [] => false
  | x :: xs => (tryStyles quoteStyles (x :: xs)).isSome || hasQuote xs

/-- Source `_separate_quotes`: matrix with each quoted span replaced by `…`, and
the captured contents joined by `…`. -/
def separateQuotes (document : List Char) : List Char × List Char :=
  ((sepQuotes document).1, List.intercalate ['…'] (sepQuotes document).2)

/-- Table `CANTO_FEATURE_RE`: Cantonese feature alternatives, in source order. -/
def cantoFeaturePat : Pat := [
  (("嘅嗰啲咗佢喺咁噉冇啩哋畀嚟諗惗乜嘢閪撚𨳍𨳊瞓睇㗎餸𨋢摷喎嚿噃嚡嘥嗮啱揾搵喐逳噏𢳂岋糴揈捹撳㩒𥄫攰癐冚孻冧𡃁嚫跣𨃩瀡氹嬲掟孭黐唞㪗埞忟𢛴嗱係唔喇俾").toList, []),
  (("唔").toList, [("係得會好識使洗駛通知到去走掂該錯差").toList]),
  (("點").toList, [("樣會做得解").toList]),
  (("琴尋噚聽第").toList, [("日").toList]),
  (("而依").toList, [("家").toList]),
  (("家").toList, [("下陣").toList]),
  (("真就實梗又話都").toList, [("係").toList]),
  (("邊").toList, [("度個位科").toList]),
  (("嚇凍攝整揩逢淥浸激").toList, [("親嚫").toList]),
  (("橫搞傾諗得唔").toList, [("掂").toList]),
  (("仲").toList, [("有係話要得好衰唔").toList]),
  (("返").toList, [("學工去歸").toList]),
  (("執").toList, [("好生實返輸").toList]),
  (("留坐剩").toList, [("低").toList]),
  (("屋").toList, [("企").toList]),
  (("收").toList, [("皮").toList]),
  (("慳").toList, [("錢").toList]),
  (("傾").toList, [("偈計").toList]),
  (("幫").toList, [("襯").toList]),
  (("求").toList, [("其").toList]),
  (("是").toList, [("但旦").toList]),
  (("濕溼").toList, [("碎").toList]),
  (("零").toList, [("舍").toList]),
  (("肉").toList, [("赤緊酸").toList]),
  (("核").toList, [("突").toList]),
  (("同").toList, [("埋").toList]),
  (("勁").toList, [("秋抽").toList]),
  (("邊").toList, [("度隻條張樣個").toList]),
  (("去").toList, [("邊").toList])
]

/-- Table `CANTO_EXCLUDE_RE`: exceptions where Cantonese feature characters occur in SWC. -/
def cantoExcludePat : Pat := [
  (("關").toList, [("係").toList]),
  (("吱").toList, [("唔").toList]),
  (("咿").toList, [("唔").toList]),
  (("喇").toList, [("嘛").toList]),
  (("喇").toList, [("叭").toList]),
  (("俾").toList, [("路").toList, ("支").toList]),
  (("俾").toList, [("斯").toList, ("麥").toList])
]

/-- Table `SWC_FEATURE_RE`: SWC feature alternatives. -/
def swcFeaturePat : Pat := [
  (("這哪唄咱啥甭那是的他她它吧沒麼么些了卻説說吃弄把也在").toList, []),
  (("而").toList, [("已").toList])
]

/-- Table `SWC_EXCLUDE_RE`: exceptions where SWC feature characters occur in Cantonese
(two pairs of adjacent raw strings in the source concatenate without a `|`,
yielding the single alternatives `的起心肝些[微少許小]` and `弄[堂]把[...]`). -/
def swcExcludePat : Pat := [
  (("亞").toList, [("利").toList, ("桑").toList, ("那").toList]),
  (("剎").toList, [("那").toList]),
  (("巴").toList, [("塞").toList, ("羅").toList, ("那").toList]),
  (("薩").toList, [("那").toList]),
  (("沙").toList, [("那").toList]),
  (("哈").toList, [("瓦").toList, ("那").toList]),
  (("印").toList, [("第").toList, ("安").toList, ("那").toList]),
  (("那").toList, [("不").toList, ("勒").toList, ("斯").toList]),
  (("支").toList, [("那").toList]),
  (("是").toList, [("否日次非但旦").toList]),
  (("利於").toList, [("是").toList]),
  (("唯").toList, [("命").toList, ("是").toList, ("從").toList]),
  (("頭").toList, [("頭").toList, ("是").toList, ("道").toList]),
  (("似").toList, [("是").toList, ("而").toList, ("非").toList]),
  (("自").toList, [("以").toList, ("為").toList, ("是").toList]),
  (("俯").toList, [("拾").toList, ("皆").toList, ("是").toList]),
  (("撩").toList, [("是").toList, ("鬥").toList, ("非").toList]),
  (("莫").toList, [("衷").toList, ("一").toList, ("是").toList]),
  (("唯").toList, [("才").toList, ("是").toList, ("用").toList]),
  (("目綠藍紅中").toList, [("的").toList]),
  (("的").toList, [("士確式").toList]),
  (("波").toList, [("羅").toList, ("的").toList, ("海").toList]),
  (("眾").toList, [("矢").toList, ("之").toList, ("的").toList]),
  (("的").toList, [("而").toList, ("且").toList, ("確").toList]),
  (("大").toList, [("眼").toList, ("的").toList, ("度").toList]),
  (("的").toList, [("起").toList, ("心").toList, ("肝").toList, ("些").toList, ("微少許小").toList]),
  (("淹沉浸覆湮埋沒出").toList, [("沒").toList]),
  (("沒").toList, [("落頂收").toList]),
  (("神").toList, [("出").toList, ("鬼").toList, ("沒").toList]),
  (("了").toList, [("結無斷當然哥結得解事之").toList]),
  (("未明").toList, [("了").toList]),
  (("不").toList, [("得").toList, ("了").toList]),
  (("大").toList, [("不").toList, ("了").toList]),
  (("他").toList, [("信人國日殺鄉").toList]),
  (("其利無排維結").toList, [("他").toList]),
  (("馬").toList, [("耳").toList, ("他").toList]),
  (("他").toList, [("加").toList, ("祿").toList]),
  (("他").toList, [("山").toList, ("之").toList, ("石").toList]),
  (("其").toList, [("它").toList]),
  (("酒網水貼").toList, [("吧").toList]),
  (("吧").toList, [("台臺枱檯").toList]),
  (("退忘阻").toList, [("卻").toList]),
  (("卻").toList, [("步").toList]),
  (("遊游小傳解學假淺眾衆訴論").toList, [("説說").toList]),
  (("說説").toList, [("話服明").toList]),
  (("自").toList, [("圓").toList, ("其").toList, ("説說").toList]),
  (("長").toList, [("話").toList, ("短").toList, ("說説").toList]),
  (("不").toList, [("由").toList, ("分").toList, ("說説").toList]),
  (("吃").toList, [("虧苦力").toList]),
  (("弄").toList, [("堂").toList, ("把").toList, ("握柄持火風關鬼口嘴戲脈炮砲屁手聲").toList]),
  (("大").toList, [("把").toList]),
  (("拉").toList, [("把").toList]),
  (("冧").toList, [("把").toList]),
  (("掃").toList, [("把").toList]),
  (("拖").toList, [("把").toList]),
  (("得").toList, [("把").toList]),
  (("加").toList, [("把").toList]),
  (("下").toList, [("把").toList, ("位").toList]),
  (("一").toList, [("把").toList, ("年").toList, ("紀").toList]),
  (("把").toList, [("死").toList, ("人").toList, ("聲").toList]),
  (("自").toList, [("把").toList, ("自").toList, ("為").toList]),
  (("兩").toList, [("把").toList]),
  (("三").toList, [("把").toList]),
  (("四").toList, [("把").toList]),
  (("五").toList, [("把").toList]),
  (("幾").toList, [("把").toList]),
  (("拎").toList, [("把").toList]),
  (("第").toList, [("一").toList, ("把").toList]),
  (("泵").toList, [("把").toList]),
  (("也").toList, [("許門").toList]),
  (("非威").toList, [("也").toList]),
  (("也").toList, [("文").toList, ("也").toList, ("武").toList]),
  (("之").toList, [("乎").toList, ("者").toList, ("也").toList]),
  (("維").toList, [("也").toList, ("納").toList]),
  (("空").toList, [("空").toList, ("如").toList, ("也").toList]),
  (("頭").toList, [("也").toList, ("不").toList, ("回").toList]),
  (("時").toList, [("也").toList, ("命運").toList, ("也").toList]),
  (("在").toList, [("場乎下校學行任野意於望內案旁生世心線逃位即職座囚此家").toList]),
  (("站志旨爭所勝衰實內外念現好健存潛差弊活").toList, [("在").toList]),
  (("我").toList, [("思").toList, ("故").toList, ("我").toList, ("在").toList])
]


/-- The labels the detector can emit.  The two hybrid labels are produced
only by the matrix/quotes reconciliation. -/
inductive Label where
  | Neutral
  | Cantonese
  | SWC
  | Mixed
  | CantoneseQuotesInSWC
  | MixedQuotesInSWC
deriving DecidableEq, Repr

/-- Detector configuration (`CantoneseDetector.__init__`).  The four float
thresholds are modelled as exact rationals; `print_stat` only controls
I/O printing and is never read by the judgement logic, so it is omitted. -/
structure Config where
  splitSeg : Bool
  getQuote : Bool
  cantoTolerance : ℚ
  swcTolerance : ℚ
  cantoPresence : ℚ
  swcPresence : ℚ

/-- The default configuration of `CantoneseDetector()`. -/
def defaultConfig : Config :=
  ⟨false, false, 1 / 100, 1 / 100, 3 / 100, 3 / 100⟩

/-- Per-segment feature record.  The class lives in the (absent)
`cantonesedetect.SegmentFeatures` module; its constructor is called in
`_get_segment_features` with the raw match lists, the two net counts and
the Han length, and only the last three fields are ever read by the
judgement logic, so only those are modelled. -/
structure SegmentFeatures where
  cantoFeatureCount : ℤ
  swcFeatureCount : ℤ
  length : ℕ

/-- Source `_get_segment_features`: net feature counts (feature matches minus
exclusion matches, as Python ints) and the Han length. -/
def getSegmentFeatures (segment : List Char) : SegmentFeatures :=
  ⟨(countPat cantoFeaturePat segment : ℤ) - (countPat cantoExcludePat segment : ℤ),
   (countPat swcFeaturePat segment : ℤ) - (countPat swcExcludePat segment : ℤ),
   hantLength segment⟩

/-- Source `_judge_single_segment`: tolerance/presence thresholds and the 0.9
normalized dominance ratio over one segment's features. -/
def judgeSingleSegment (cfg : Config) (segment : List Char) : Label :=
  let f := getSegmentFeatures segment
  let numAllFeatures : ℤ := f.cantoFeatureCount + f.swcFeatureCount
  let lackSwc : Prop := f.swcFeatureCount ≤ ⌊cfg.swcTolerance * (f.length : ℚ)⌋
  let lackCanto : Prop := f.cantoFeatureCount ≤ ⌊cfg.cantoTolerance * (f.length : ℚ)⌋
  if numAllFeatures = 0 ∨ (lackCanto ∧ lackSwc) then
    Label.Neutral
  else
    let hasCanto : Prop := f.cantoFeatureCount ≥ ⌈cfg.cantoPresence * (f.length : ℚ)⌉
    let hasSwc : Prop := f.swcFeatureCount ≥ ⌈cfg.swcPresence * (f.length : ℚ)⌉
    let cantoPref : Prop :=
      (f.cantoFeatureCount : ℚ) / (numAllFeatures : ℚ) -
        (f.swcFeatureCount : ℚ) / (numAllFeatures : ℚ) > 9 / 10
    let swcPref : Prop :=
      (f.swcFeatureCount : ℚ) / (numAllFeatures : ℚ) -
        (f.cantoFeatureCount : ℚ) / (numAllFeatures : ℚ) > 9 / 10
    if cantoPref ∧ ¬hasSwc then Label.Cantonese
    else if swcPref ∧ ¬hasCanto then Label.SWC
    else Label.Mixed

/-- Source `_judge_segments`: split on the delimiters, keep the pieces whose
`strip()` is truthy, judge each, and aggregate with the 95% threshold. -/
def judgeSegments (cfg : Config) (document : List Char) : Label :=
  let segments := (splitDelims document).filter keepPiece
  let judgements := segments.map (judgeSingleSegment cfg)
  let cantoSegCount := judgements.count Label.Cantonese
  let swcSegCount := judgements.count Label.SWC
  let neutralSegCount := judgements.count Label.Neutral
  let threshold : ℤ := ⌈(judgements.length : ℚ) * (19 / 20)⌉
  let cantoOnly : Prop := (cantoSegCount : ℤ) + (neutralSegCount : ℤ) ≥ threshold
  let swcOnly : Prop := (swcSegCount : ℤ) + (neutralSegCount : ℤ) ≥ threshold
  let neutralOnly : Prop := (neutralSegCount : ℤ) ≥ threshold
  if neutralOnly then Label.Neutral
  else if cantoOnly then Label.Cantonese
  else if swcOnly then Label.SWC
  else Label.Mixed

/-- Source `_judge_document`: whole-document judgement per the split flag. -/
def judgeDocument (cfg : Config) (document : List Char) : Label :=
  if cfg.splitSeg then judgeSegments cfg document
  else judgeSingleSegment cfg document

/-- Source `_judge_matrix_quotes`: separate matrix and quotes and reconcile the
two judgements. -/
def judgeMatrixQuotes (cfg : Config) (document : List Char) : Label :=
  let matrix := (sepQuotes document).1
  let quotes := List.intercalate ['…'] (sepQuotes document).2
  if matrix = ['…'] then
    judgeDocument cfg (subQuotes quotes)
  else if quotes = [] then
    judgeDocument cfg matrix
  else
    let matrixJudgement := judgeDocument cfg matrix
    let quotesJudgement := judgeDocument cfg quotes
    if matrixJudgement = quotesJudgement then matrixJudgement
    else if matrixJudgement = Label.Neutral then quotesJudgement
    else if quotesJudgement = Label.Neutral then matrixJudgement
    else if matrixJudgement = Label.SWC ∧ quotesJudgement = Label.Cantonese then
      Label.CantoneseQuotesInSWC
    else if matrixJudgement = Label.SWC ∧ quotesJudgement = Label.Mixed then
      Label.MixedQuotesInSWC
    else Label.Mixed

/-- Source `judge` on a character list. -/
def judgeL (cfg : Config) (document : List Char) : Label :=
  if cfg.getQuote then judgeMatrixQuotes cfg document
  else judgeDocument cfg document

/-- Source `judge`: the only exposed operation. -/
def judge (cfg : Config) (document : String) : Label :=
  judgeL cfg document.data

/-- Default thresholds with quote separation enabled
(`CantoneseDetector(get_quote=True)`). -/
def quoteConfig : Config :=
  ⟨false, true, 1 / 100, 1 / 100, 3 / 100, 3 / 100⟩

/-- Default thresholds with segment splitting enabled
(`CantoneseDetector(split_seg=True)`). -/
def splitConfig : Config :=
  ⟨true, false, 1 / 100, 1 / 100, 3 / 100, 3 / 100⟩

/-- Claim C1's statement of the Segment Judge algorithm, written from the
claim's words as a function of the net counts and the Han length. -/
def claimSegmentLabel (cfg : Config) (cantoCount swcCount : ℤ) (L : ℕ) : Label :=
  if cantoCount + swcCount = 0 then Label.Neutral
  else if cantoCount ≤ ⌊cfg.cantoTolerance * (L : ℚ)⌋ ∧
          swcCount ≤ ⌊cfg.swcTolerance * (L : ℚ)⌋ then Label.Neutral
  else
    let total : ℤ := cantoCount + swcCount
    if (cantoCount : ℚ) / (total : ℚ) - (swcCount : ℚ) / (total : ℚ) > 9 / 10 ∧
       ¬(swcCount ≥ ⌈cfg.swcPresence * (L : ℚ)⌉) then Label.Cantonese
    else if (swcCount : ℚ) / (total : ℚ) - (cantoCount : ℚ) / (total : ℚ) > 9 / 10 ∧
            ¬(cantoCount ≥ ⌈cfg.cantoPresence * (L : ℚ)⌉) then Label.SWC
    else Label.Mixed

/-- Claim C2's statement of the Segment Aggregator, written from the
claim's words: split, discard whitespace-only pieces, judge each piece,
threshold `⌈0.95 · n⌉`, then the fixed Neutral/Cantonese/SWC/Mixed order. -/
def claimAggregate (cfg : Config) (document : List Char) : Label :=
  let pieces := (splitDelims document).filter keepPiece
  let js := pieces.map (judgeSingleSegment cfg)
  let threshold : ℤ := ⌈(19 / 20 : ℚ) * (js.length : ℚ)⌉
  if (js.count Label.Neutral : ℤ) ≥ threshold then Label.Neutral
  else if (js.count Label.Cantonese : ℤ) + (js.count Label.Neutral : ℤ) ≥ threshold then
    Label.Cantonese
  else if (js.count Label.SWC : ℤ) + (js.count Label.Neutral : ℤ) ≥ threshold then
    Label.SWC
  else Label.Mixed

/-- Claim C3's reconciliation table for a matrix judgement and a quotes
judgement, written from the claim's words. -/
def reconcileSpec (mJ qJ : Label) : Label :=
  if mJ = qJ then mJ
  else if mJ = Label.Neutral then qJ
  else if qJ = Label.Neutral then mJ
  else if mJ = Label.SWC ∧ qJ = Label.Cantonese then Label.CantoneseQuotesInSWC
  else if mJ = Label.SWC ∧ qJ = Label.Mixed then Label.MixedQuotesInSWC
  else Label.Mixed

/-- Claim C5's reading of the all-quote branch: strip the placeholder
marker characters `…` from the quotes string. -/
def stripPlaceholders (s : List Char) : List Char :=
  s.filter (fun c => c ≠ '…')

/-- An item is covered by `feat` when every character it accepts is matched
by some single-item alternative of `feat`. -/
def itemCovered (feat : Pat) (item : CC) : Bool :=
  item.all (fun ch => feat.any (fun f => f.2.isEmpty && f.1.contains ch))

/-- An alternative is covered when one of its items is covered. -/
def altCovered (feat : Pat) (a : Alt) : Bool :=
  (a.1 :: a.2).any (itemCovered feat)

/-- Every alternative of `p` is covered by `feat`: any match of `p`
necessarily overlaps a match of `feat`. -/
def patCovered (feat p : Pat) : Bool := p.all (altCovered feat)

/-! ## Helper lemmas about the quote scanner -/

theorem splitLast_of_not_mem (c : Char) :
    ∀ l : List Char, c ∉ l → splitLast c l = none := by
  intro l
  induction l with
  | nil => intro _; rfl
  | cons x xs ih =>
    intro h
    unfold splitLast
    rw [ih (fun hm => h (List.mem_cons_of_mem _ hm))]
    have hxc : ¬(x = c) := fun he => h (by rw [← he]; exact List.mem_cons_self x xs)
    exact if_neg hxc

theorem splitLast_append (c : Char) :
    ∀ (a b : List Char), c ∉ b → splitLast c (a ++ c :: b) = some (a, b) := by
  intro a
  induction a with
  | nil =>
    intro b hb
    show splitLast c (c :: b) = some ([], b)
    unfold splitLast
    rw [splitLast_of_not_mem c b hb, if_pos rfl]
  | cons x a ih =>
    intro b hb
    show splitLast c (x :: (a ++ c :: b)) = some (x :: a, b)
    unfold splitLast
    rw [ih b hb]

theorem tryStyle_head_ne (o c x : Char) (s : List Char) (h : x ≠ o) :
    tryStyle o c (x :: s) = none := by
  unfold tryStyle
  exact if_neg h

theorem takeWhile_ne_of_not_mem (o : Char) :
    ∀ l : List Char, (∀ ch ∈ l, ch ≠ o) → l.takeWhile (fun ch => ch ≠ o) = l := by
  intro l
  induction l with
  | nil => intro _; rfl
  | cons x xs ih =>
    intro h
    unfold List.takeWhile
    rw [decide_eq_true (h x (List.mem_cons_self x xs)),
      ih (fun ch hm => h ch (List.mem_cons_of_mem _ hm))]

theorem tryStyle_exact (o c : Char) (content : List Char)
    (h1 : o ∉ content) (h2 : o ≠ c) :
    tryStyle o c (o :: (content ++ [c])) = some (content, []) := by
  simp only [tryStyle, if_pos rfl]
  have hall : ∀ ch ∈ content ++ [c], ch ≠ o := by
    intro ch hm
    rcases List.mem_append.mp hm with hm1 | hm2
    · exact fun he => h1 (he ▸ hm1)
    · rw [List.mem_singleton.mp hm2]
      exact fun he => h2 (he.symm)
  rw [takeWhile_ne_of_not_mem o (content ++ [c]) hall,
    splitLast_append c content [] (List.not_mem_nil c)]
  have hdrop : (content ++ [c]).drop (content.length + 1) = [] := by
    apply List.drop_eq_nil_of_le
    simp
  simp [hdrop]

theorem sepQuotesF_cons_match (n : Nat) (x : Char) (rest content rem : List Char)
    (h : tryStyles quoteStyles (x :: rest) = some (content, rem)) :
    sepQuotesF (n + 1) (x :: rest) =
      ('…' :: (sepQuotesF n rem).1, content :: (sepQuotesF n rem).2) := by
  conv_lhs => unfold sepQuotesF
  rw [h]

theorem sepQuotesF_cons_none (n : Nat) (x : Char) (rest : List Char)
    (h : tryStyles quoteStyles (x :: rest) = none) :
    sepQuotesF (n + 1) (x :: rest) =
      (x :: (sepQuotesF n rest).1, (sepQuotesF n rest).2) := by
  conv_lhs => unfold sepQuotesF
  rw [h]

theorem sepQuotesF_nil : ∀ n : Nat, sepQuotesF n [] = ([], []) := by
  intro n
  cases n <;> rfl

theorem sepQuotesF_no_match :
    ∀ (n : Nat) (s : List Char), s.length ≤ n → hasQuote s = false →
      sepQuotesF n s = (s, []) := by
  intro n
  induction n with
  | zero =>
    intro s hs _
    rw [List.eq_nil_of_length_eq_zero (Nat.le_zero.mp hs)]
    rfl
  | succ n ih =>
    intro s hs hq
    cases s with
    | nil => rfl
    | cons x xs =>
      unfold hasQuote at hq
      rw [Bool.or_eq_false_iff] at hq
      have hnone : tryStyles quoteStyles (x :: xs) = none := by
        cases ho : tryStyles quoteStyles (x :: xs) with
        | none => rfl
        | some r => rw [ho] at hq; simp at hq
      rw [sepQuotesF_cons_none n x xs hnone,
        ih xs (Nat.le_of_succ_le_succ hs) hq.2]

theorem sepQuotes_cons_match (x : Char) (rest content : List Char)
    (h : tryStyles quoteStyles (x :: rest) = some (content, [])) :
    sepQuotes (x :: rest) = (['…'], [content]) := by
  unfold sepQuotes
  rw [List.length_cons, sepQuotesF_cons_match rest.length x rest content [] h,
    sepQuotesF_nil]

theorem tryStyles_corner (xs : List Char) (h : '「' ∉ xs) :
    tryStyles quoteStyles ('「' :: (xs ++ ['」'])) = some (xs, []) := by
  have h1 := tryStyle_exact '「' '」' xs h (by decide)
  simp only [quoteStyles, tryStyles, h1]

theorem tryStyles_curly (xs : List Char) (h : '“' ∉ xs) :
    tryStyles quoteStyles ('“' :: (xs ++ ['”'])) = some (xs, []) := by
  have n1 : tryStyle '「' '」' ('“' :: (xs ++ ['”'])) = none :=
    tryStyle_head_ne _ _ _ _ (by decide)
  have h1 := tryStyle_exact '“' '”' xs h (by decide)
  simp only [quoteStyles, tryStyles, n1, h1]

theorem tryStyles_angle (xs : List Char) (h : '《' ∉ xs) :
    tryStyles quoteStyles ('《' :: (xs ++ ['》'])) = some (xs, []) := by
  have n1 : tryStyle '「' '」' ('《' :: (xs ++ ['》'])) = none :=
    tryStyle_head_ne _ _ _ _ (by decide)
  have n2 : tryStyle '“' '”' ('《' :: (xs ++ ['》'])) = none :=
    tryStyle_head_ne _ _ _ _ (by decide)
  have h1 := tryStyle_exact '《' '》' xs h (by decide)
  simp only [quoteStyles, tryStyles, n1, n2, h1]

theorem tryStyles_lenticular (xs : List Char) (h : '【' ∉ xs) :
    tryStyles quoteStyles ('【' :: (xs ++ ['】'])) = some (xs, []) := by
  have n1 : tryStyle '「' '」' ('【' :: (xs ++ ['】'])) = none :=
    tryStyle_head_ne _ _ _ _ (by decide)
  have n2 : tryStyle '“' '”' ('【' :: (xs ++ ['】'])) = none :=
    tryStyle_head_ne _ _ _ _ (by decide)
  have n3 : tryStyle '《' '》' ('【' :: (xs ++ ['】'])) = none :=
    tryStyle_head_ne _ _ _ _ (by decide)
  have h1 := tryStyle_exact '【' '】' xs h (by decide)
  simp only [quoteStyles, tryStyles, n1, n2, n3, h1]

theorem tryStyles_white (xs : List Char) (h : '『' ∉ xs) :
    tryStyles quoteStyles ('『' :: (xs ++ ['』'])) = some (xs, []) := by
  have n1 : tryStyle '「' '」' ('『' :: (xs ++ ['』'])) = none :=
    tryStyle_head_ne _ _ _ _ (by decide)
  have n2 : tryStyle '“' '”' ('『' :: (xs ++ ['』'])) = none :=
    tryStyle_head_ne _ _ _ _ (by decide)
  have n3 : tryStyle '《' '》' ('『' :: (xs ++ ['』'])) = none :=
    tryStyle_head_ne _ _ _ _ (by decide)
  have n4 : tryStyle '【' '】' ('『' :: (xs ++ ['』'])) = none :=
    tryStyle_head_ne _ _ _ _ (by decide)
  have h1 := tryStyle_exact '『' '』' xs h (by decide)
  simp only [quoteStyles, tryStyles, n1, n2, n3, n4, h1]

/-! ## Helper lemmas about the match engine -/

theorem countPat_of_search_false (p : Pat) :
    ∀ s : List Char, searchB p s = false → countPat p s = 0 := by
  intro s
  induction s with
  | nil => intro _; rfl
  | cons x xs ih =>
    intro h
    unfold searchB at h
    rw [Bool.or_eq_false_iff] at h
    have hnone : firstMatch p (x :: xs) = none := by
      cases ho : firstMatch p (x :: xs) with
      | none => rfl
      | some r => rw [ho] at h; simp at h
    show countPatF (x :: xs).length p (x :: xs) = 0
    rw [List.length_cons]
    conv_lhs => unfold countPatF
    simp only [hnone]
    exact ih h.2

theorem matchItems_append (items : List CC) :
    ∀ (s t r : List Char), matchItems items s = some r →
      matchItems items (s ++ t) = some (r ++ t) := by
  induction items with
  | nil =>
    intro s t r h
    have hs : s = r := Option.some.inj h
    subst hs
    rfl
  | cons cls more ih =>
    intro s t r h
    cases s with
    | nil => exact absurd h (by simp [matchItems])
    | cons x xs =>
      rw [List.cons_append]
      simp only [matchItems] at h ⊢
      by_cases hc : cls.contains x = true
      · rw [if_pos hc] at h ⊢
        exact ih xs t r h
      · rw [if_neg hc] at h
        exact absurd h (by simp)

theorem firstMatch_isSome_append (p : Pat) :
    ∀ s t : List Char, (firstMatch p s).isSome = true →
      (firstMatch p (s ++ t)).isSome = true := by
  induction p with
  | nil => intro s t h; simp [firstMatch] at h
  | cons a rest ih =>
    intro s t h
    unfold firstMatch
    cases ha : matchAlt a s with
    | some r =>
      have hb : matchAlt a (s ++ t) = some (r ++ t) := matchItems_append (a.1 :: a.2) s t r ha
      rw [hb]
      rfl
    | none =>
      have h' : (firstMatch rest s).isSome = true := by
        unfold firstMatch at h
        rw [ha] at h
        exact h
      cases hb : matchAlt a (s ++ t) with
      | some r => rfl
      | none => exact ih s t h' 

theorem searchB_append_left (p : Pat) :
    ∀ s t : List Char, searchB p (s ++ t) = false → searchB p s = false := by
  intro s
  induction s with
  | nil => intro t _; rfl
  | cons x xs ih =>
    intro t h
    have h' : searchB p (x :: (xs ++ t)) = false := h
    unfold searchB at h'
    rw [Bool.or_eq_false_iff] at h'
    unfold searchB
    rw [Bool.or_eq_false_iff]
    constructor
    · cases hs : (firstMatch p (x :: xs)).isSome with
      | false => rfl
      | true =>
        have hlift := firstMatch_isSome_append p (x :: xs) t hs
        rw [List.cons_append] at hlift
        rw [hlift] at h'
        exact absurd h'.1 (by simp)
    · exact ih t h'.2

theorem searchB_append_right (p : Pat) :
    ∀ s t : List Char, searchB p (s ++ t) = false → searchB p t = false := by
  intro s
  induction s with
  | nil => intro t h; exact h
  | cons x xs ih =>
    intro t h
    have h' : searchB p (x :: (xs ++ t)) = false := h
    unfold searchB at h'
    rw [Bool.or_eq_false_iff] at h'
    exact ih t h'.2

theorem splitDelims_head :
    ∀ s : List Char, ∃ h t, splitDelims s = h :: t ∧ ∃ suf, s = h ++ suf := by
  intro s
  induction s with
  | nil => exact ⟨[], [], rfl, [], rfl⟩
  | cons x xs ih =>
    by_cases hd : isDelim x = true
    · refine ⟨[], splitDelims xs, ?_, x :: xs, rfl⟩
      simp only [splitDelims]
      rw [if_pos hd]
    · obtain ⟨h, t, heq, suf, hs⟩ := ih
      refine ⟨x :: h, t, ?_, suf, ?_⟩
      · simp only [splitDelims]
        rw [if_neg hd, heq]
      · rw [List.cons_append, ← hs]

theorem splitDelims_mem :
    ∀ (s piece : List Char), piece ∈ splitDelims s →
      ∃ pre suf, s = pre ++ (piece ++ suf) := by
  intro s
  induction s with
  | nil =>
    intro piece h
    have hp : piece = [] := by simpa [splitDelims] using h
    subst hp
    exact ⟨[], [], rfl⟩
  | cons x xs ih =>
    intro piece h
    simp only [splitDelims] at h
    by_cases hd : isDelim x = true
    · rw [if_pos hd] at h
      rcases List.mem_cons.mp h with h1 | h2
      · subst h1
        exact ⟨[], x :: xs, rfl⟩
      · obtain ⟨pre, suf, heq⟩ := ih piece h2
        exact ⟨x :: pre, suf, by rw [List.cons_append, ← heq]⟩
    · rw [if_neg hd] at h
      obtain ⟨hh, tt, heq2, suf0, hxs⟩ := splitDelims_head xs
      rw [heq2] at h
      rcases List.mem_cons.mp h with h1 | h2
      · subst h1
        refine ⟨[], suf0, ?_⟩
        rw [List.nil_append, List.cons_append, ← hxs]
      · have hmem : piece ∈ splitDelims xs := by
          rw [heq2]
          exact List.mem_cons_of_mem _ h2
        obtain ⟨pre, suf, heq⟩ := ih piece hmem
        exact ⟨x :: pre, suf, by rw [List.cons_append, ← heq]⟩

theorem firstMatch_isSome_of_alt (p : Pat) :
    ∀ (a : Alt) (s : List Char), a ∈ p → (matchAlt a s).isSome = true →
      (firstMatch p s).isSome = true := by
  induction p with
  | nil => intro a s ha _; exact absurd ha (List.not_mem_nil a)
  | cons b rest ih =>
    intro a s ha hm
    unfold firstMatch
    cases hb : matchAlt b s with
    | some r => rfl
    | none =>
      rcases List.mem_cons.mp ha with h1 | h2
      · subst h1
        rw [hb] at hm
        simp at hm
      · exact ih a s h2 hm

theorem firstMatch_isSome_elim (p : Pat) :
    ∀ s : List Char, (firstMatch p s).isSome = true →
      ∃ a, a ∈ p ∧ (matchAlt a s).isSome = true := by
  induction p with
  | nil => intro s h; simp [firstMatch] at h
  | cons a rest ih =>
    intro s h
    cases ha : matchAlt a s with
    | some r => exact ⟨a, List.mem_cons_self a rest, by rw [ha]; rfl⟩
    | none =>
      have h' : (firstMatch rest s).isSome = true := by
        unfold firstMatch at h
        rw [ha] at h
        exact h
      obtain ⟨b, hb, hmb⟩ := ih s h'
      exact ⟨b, List.mem_cons_of_mem a hb, hmb⟩

theorem covered_items_search (feat : Pat) :
    ∀ (items : List CC) (u r : List Char),
      items.any (itemCovered feat) = true → matchItems items u = some r →
      searchB feat u = true := by
  intro items
  induction items with
  | nil => intro u r hcov _; simp at hcov
  | cons item more ih =>
    intro u r hcov hmatch
    cases u with
    | nil => exact absurd hmatch (by simp [matchItems])
    | cons x xs =>
      simp only [matchItems] at hmatch
      by_cases hx : item.contains x = true
      · rw [if_pos hx] at hmatch
        simp only [List.any_cons] at hcov
        rcases Bool.or_eq_true_iff.mp hcov with hitem | hmore
        · have hxmem : x ∈ item := List.mem_of_elem_eq_true hx
          have hitem' : item.all (fun ch => feat.any (fun f => f.2.isEmpty && f.1.contains ch)) = true := hitem
          have hfeat : feat.any (fun f => f.2.isEmpty && f.1.contains x) = true :=
            List.all_eq_true.mp hitem' x hxmem
          obtain ⟨f, hf, hprop⟩ := List.any_eq_true.mp hfeat
          rw [Bool.and_eq_true] at hprop
          have hf2 : f.2 = [] := List.isEmpty_iff.mp hprop.1
          have hsome : (matchAlt f (x :: xs)).isSome = true := by
            unfold matchAlt
            rw [hf2]
            simp only [matchItems]
            rw [if_pos hprop.2]
            rfl
          have hfm := firstMatch_isSome_of_alt feat f (x :: xs) hf hsome
          simp only [searchB, hfm, Bool.true_or]
        · have hxs := ih xs r hmore hmatch
          simp only [searchB, hxs, Bool.or_true]
      · rw [if_neg hx] at hmatch
        exact absurd hmatch (by simp)

theorem covered_search (feat p : Pat) (hcov : patCovered feat p = true) :
    ∀ s : List Char, searchB feat s = false → searchB p s = false := by
  intro s
  induction s with
  | nil => intro _; rfl
  | cons x xs ih =>
    intro hf
    have hf' : (firstMatch feat (x :: xs)).isSome = false ∧ searchB feat xs = false := by
      unfold searchB at hf
      rw [Bool.or_eq_false_iff] at hf
      exact hf
    unfold searchB
    rw [Bool.or_eq_false_iff]
    refine ⟨?_, ih hf'.2⟩
    cases hl : (firstMatch p (x :: xs)).isSome with
    | false => rfl
    | true =>
      exfalso
      obtain ⟨a, hap, hma⟩ := firstMatch_isSome_elim p (x :: xs) hl
      obtain ⟨r, hr⟩ := Option.isSome_iff_exists.mp hma
      have hcov' : p.all (altCovered feat) = true := hcov
      have hacov : (a.1 :: a.2).any (itemCovered feat) = true :=
        List.all_eq_true.mp hcov' a hap
      have hsearch : searchB feat (x :: xs) = true :=
        covered_items_search feat (a.1 :: a.2) (x :: xs) r hacov hr
      rw [hf] at hsearch
      exact absurd hsearch (by decide)

theorem cantoExclude_covered : patCovered cantoFeaturePat cantoExcludePat = true := by
  decide

theorem swcExclude_covered : patCovered swcFeaturePat swcExcludePat = true := by
  decide

theorem judgeSingleSegment_neutral (cfg : Config) (seg : List Char)
    (hc : searchB cantoFeaturePat seg = false)
    (hs : searchB swcFeaturePat seg = false) :
    judgeSingleSegment cfg seg = Label.Neutral := by
  have hc0 : countPat cantoFeaturePat seg = 0 := countPat_of_search_false _ seg hc
  have hce : countPat cantoExcludePat seg = 0 :=
    countPat_of_search_false _ seg (covered_search _ _ cantoExclude_covered seg hc)
  have hs0 : countPat swcFeaturePat seg = 0 := countPat_of_search_false _ seg hs
  have hse : countPat swcExcludePat seg = 0 :=
    countPat_of_search_false _ seg (covered_search _ _ swcExclude_covered seg hs)
  unfold judgeSingleSegment getSegmentFeatures
  rw [hc0, hce, hs0, hse]
  norm_num

theorem judgeSegments_neutral (cfg : Config) (document : List Char)
    (hc : searchB cantoFeaturePat document = false)
    (hs : searchB swcFeaturePat document = false) :
    judgeSegments cfg document = Label.Neutral := by
  have hall : ∀ j ∈ ((splitDelims document).filter keepPiece).map (judgeSingleSegment cfg),
      j = Label.Neutral := by
    intro j hj
    obtain ⟨piece, hpmem, hpeq⟩ := List.mem_map.mp hj
    have hpm : piece ∈ splitDelims document := (List.mem_filter.mp hpmem).1
    obtain ⟨pre, suf, heq⟩ := splitDelims_mem document piece hpm
    rw [heq] at hc hs
    have hcp : searchB cantoFeaturePat piece = false :=
      searchB_append_left _ piece suf (searchB_append_right _ pre _ hc)
    have hsp : searchB swcFeaturePat piece = false :=
      searchB_append_left _ piece suf (searchB_append_right _ pre _ hs)
    rw [← hpeq]
    exact judgeSingleSegment_neutral cfg piece hcp hsp
  unfold judgeSegments
  simp only []
  set js := ((splitDelims document).filter keepPiece).map (judgeSingleSegment cfg) with hjs
  have hn : List.count Label.Neutral js = js.length :=
    List.count_eq_length.mpr (fun b hb => (hall b hb).symm)
  have hcond : (List.count Label.Neutral js : ℤ) ≥ ⌈(js.length : ℚ) * (19 / 20)⌉ := by
    rw [hn, ge_iff_le, Int.ceil_le]
    push_cast
    nlinarith [show (0 : ℚ) ≤ (js.length : ℚ) from by positivity]
  split_ifs
  rfl

theorem judgeDocument_neutral (cfg : Config) (document : List Char)
    (hc : searchB cantoFeaturePat document = false)
    (hs : searchB swcFeaturePat document = false) :
    judgeDocument cfg document = Label.Neutral := by
  unfold judgeDocument
  cases hsplit : cfg.splitSeg with
  | false =>
    rw [if_neg (by simp [hsplit])]
    exact judgeSingleSegment_neutral cfg document hc hs
  | true =>
    rw [if_pos (by simp [hsplit])]
    exact judgeSegments_neutral cfg document hc hs

/-! ## The claims -/

/-- C1: the Segment Judge returns its label by exactly the claimed
algorithm over the net feature counts and the Han length, with floor for
the tolerance checks, ceil for the presence checks, and the 0.9 dominance
margin on the normalized difference. -/
theorem c1_segment_judge_algorithm (cfg : Config) (segment : List Char) :
    judgeSingleSegment cfg segment =
      claimSegmentLabel cfg (getSegmentFeatures segment).cantoFeatureCount
        (getSegmentFeatures segment).swcFeatureCount
        (getSegmentFeatures segment).length := by
  unfold judgeSingleSegment claimSegmentLabel
  simp only []
  by_cases h0 : (getSegmentFeatures segment).cantoFeatureCount +
      (getSegmentFeatures segment).swcFeatureCount = 0
  · rw [if_pos (Or.inl h0), if_pos h0]
  · by_cases h1 : (getSegmentFeatures segment).cantoFeatureCount ≤
        ⌊cfg.cantoTolerance * ((getSegmentFeatures segment).length : ℚ)⌋ ∧
        (getSegmentFeatures segment).swcFeatureCount ≤
        ⌊cfg.swcTolerance * ((getSegmentFeatures segment).length : ℚ)⌋
    · rw [if_pos (Or.inr h1), if_neg h0, if_pos h1]
    · rw [if_neg (not_or.mpr ⟨h0, h1⟩), if_neg h0, if_neg h1]

/-- C2: the Segment Aggregator splits on the delimiters, discards
whitespace-only pieces, judges each piece, sets the threshold to
`⌈0.95 · n⌉`, and tests Neutral, then Cantonese+Neutral, then SWC+Neutral,
else Mixed, in that fixed order. -/
theorem c2_segment_aggregator_algorithm (cfg : Config) (document : List Char) :
    judgeSegments cfg document = claimAggregate cfg document := by
  unfold judgeSegments claimAggregate
  simp only []
  rw [mul_comm ((19 : ℚ) / 20)]

/-- C3: with quote separation enabled, a matrix different from the bare
placeholder, and a non-empty quotes string, the Reconciler judges matrix
and quotes independently and combines them by the claimed table (equal
labels pass through, Neutral defers, SWC/Cantonese and SWC/Mixed give the
hybrid labels, and every other disagreeing pair gives Mixed). -/
theorem c3_reconciler_disagreement_table (cfg : Config) (document : List Char)
    (hget : cfg.getQuote = true)
    (hm : (sepQuotes document).1 ≠ ['…'])
    (hq : List.intercalate ['…'] (sepQuotes document).2 ≠ []) :
    judgeL cfg document =
      reconcileSpec (judgeDocument cfg (sepQuotes document).1)
        (judgeDocument cfg (List.intercalate ['…'] (sepQuotes document).2)) := by
  unfold judgeL
  rw [hget, if_pos rfl]
  unfold judgeMatrixQuotes reconcileSpec
  simp only []
  rw [if_neg hm, if_neg hq]

/-- C3 witness: a concrete document with a non-placeholder matrix and
non-empty quotes. -/
theorem c3_reconciler_witness :
    judgeL quoteConfig (("把「嘅」").data) =
      reconcileSpec (judgeDocument quoteConfig (sepQuotes (("把「嘅」").data)).1)
        (judgeDocument quoteConfig
          (List.intercalate ['…'] (sepQuotes (("把「嘅」").data)).2)) :=
  c3_reconciler_disagreement_table quoteConfig (("把「嘅」").data) rfl
    (by decide) (by decide)

/-- C4: `judge` is total and returns one of the six labels for every
configuration and every input string. -/
theorem c4_judge_total_six_labels (cfg : Config) (document : String) :
    judge cfg document = Label.Neutral ∨ judge cfg document = Label.Cantonese ∨
    judge cfg document = Label.SWC ∨ judge cfg document = Label.Mixed ∨
    judge cfg document = Label.CantoneseQuotesInSWC ∨
    judge cfg document = Label.MixedQuotesInSWC := by
  cases h : judge cfg document <;> simp

/-- C5 counterexample: for the document `「《把》」` the matrix is exactly the
placeholder, but the code judges `ALL_QUOTEMARKS_RE.sub("", quotes)` — which
deletes the whole nested span `《把》`, marks and content — and returns
Neutral, while the claim's reading (strip only placeholder markers from the
quotes string and judge that) yields SWC. -/
theorem c5_counterexample :
    (sepQuotes (("「《把》」").data)).1 = ['…'] ∧
    judgeL quoteConfig (("「《把》」").data) = Label.Neutral ∧
    judgeDocument quoteConfig
        (stripPlaceholders (List.intercalate ['…'] (sepQuotes (("「《把》」").data)).2)) =
      Label.SWC :=
  ⟨by decide, by decide, by decide⟩

/-- C5 amended: when the matrix equals the placeholder alone, the
Reconciler judges the quotes string with every quote-pair match removed
(`ALL_QUOTEMARKS_RE.sub("", quotes)`, which deletes nested spans with
their content, and leaves literal `…` characters in place), per the
split-segment flag, and returns that label directly. -/
theorem c5_allquote_branch (cfg : Config) (document : List Char)
    (hget : cfg.getQuote = true)
    (hm : (sepQuotes document).1 = ['…']) :
    judgeL cfg document =
      judgeDocument cfg (subQuotes (List.intercalate ['…'] (sepQuotes document).2)) := by
  unfold judgeL
  rw [hget, if_pos rfl]
  unfold judgeMatrixQuotes
  simp only []
  rw [if_pos hm]

/-- C5 witness: a concrete all-quote document. -/
theorem c5_allquote_witness :
    judgeL quoteConfig (("「嘅」").data) =
      judgeDocument quoteConfig
        (subQuotes (List.intercalate ['…'] (sepQuotes (("「嘅」").data)).2)) :=
  c5_allquote_branch quoteConfig (("「嘅」").data) rfl (by decide)

/-- C6 counterexample: the quote table has five styles, not four, and the
scan is greedy, not non-greedy: on `「a」b」` the span runs to the last `」`
(content `a」b`, matrix `…`), where a non-greedy match would stop at the
first `」` (content `a`, matrix `…b」`). -/
theorem c6_counterexample :
    quoteStyles.length = 5 ∧
    sepQuotes (("「a」b」").data) = (['…'], [['a', '」', 'b']]) :=
  ⟨rfl, by decide⟩

/-- C6 amended: the Quote Separator recognizes exactly the five bracket
styles `「」`, `“”`, `《》`, `【】`, `『』`; a span opens at an opening mark,
cannot contain another instance of its own opening mark, may contain the
other styles' marks, and extends greedily to the last closing mark of its
own style within that span. -/
theorem c6_quote_styles_amended :
    quoteStyles.length = 5 ∧
    ∀ p ∈ quoteStyles, ∀ xs : List Char, p.1 ∉ xs →
      sepQuotes (p.1 :: (xs ++ [p.2])) = (['…'], [xs]) := by
  refine ⟨rfl, ?_⟩
  intro p hp xs hxo
  fin_cases hp
  · exact sepQuotes_cons_match _ _ _ (tryStyles_corner xs hxo)
  · exact sepQuotes_cons_match _ _ _ (tryStyles_curly xs hxo)
  · exact sepQuotes_cons_match _ _ _ (tryStyles_angle xs hxo)
  · exact sepQuotes_cons_match _ _ _ (tryStyles_lenticular xs hxo)
  · exact sepQuotes_cons_match _ _ _ (tryStyles_white xs hxo)

/-- C6 witness: the fifth style with cross-style content. -/
theorem c6_quote_styles_witness :
    sepQuotes ('『' :: (['x', '《'] ++ ['』'])) = (['…'], [['x', '《']]) :=
  c6_quote_styles_amended.2 ('『', '』') (by decide) ['x', '《'] (by decide)

/-- C7: the empty document is judged Neutral for every configuration:
both split-segment settings and both quote settings. -/
theorem c7_empty_string_neutral (cfg : Config) : judge cfg ("") = Label.Neutral := by
  show judgeL cfg (("") : String).data = Label.Neutral
  have hdata : (("") : String).data = [] := rfl
  rw [hdata]
  unfold judgeL
  cases hget : cfg.getQuote with
  | false =>
    rw [if_neg (by simp [hget])]
    exact judgeDocument_neutral cfg [] rfl rfl
  | true =>
    rw [if_pos (by simp [hget])]
    unfold judgeMatrixQuotes
    simp only []
    rw [show sepQuotes ([] : List Char) = ([], []) from rfl]
    rw [if_neg (by decide),
      if_pos (show List.intercalate ['…']
          ((([], []) : List Char × List (List Char))).2 = ([] : List Char) from rfl)]
    exact judgeDocument_neutral cfg [] rfl rfl

/-- C8: whenever the Segment Judge's step-2 guard fails (so control
reaches the normalized-dominance divisions), the divisor
`canto_count + swc_count` is a nonzero rational — the `total == 0` case is
filtered by the guard's first disjunct even though net counts can be
negative. -/
theorem c8_no_division_by_zero (cfg : Config) (segment : List Char)
    (h : ¬((getSegmentFeatures segment).cantoFeatureCount +
          (getSegmentFeatures segment).swcFeatureCount = 0 ∨
        ((getSegmentFeatures segment).cantoFeatureCount ≤
            ⌊cfg.cantoTolerance * ((getSegmentFeatures segment).length : ℚ)⌋ ∧
          (getSegmentFeatures segment).swcFeatureCount ≤
            ⌊cfg.swcTolerance * ((getSegmentFeatures segment).length : ℚ)⌋))) :
    (((getSegmentFeatures segment).cantoFeatureCount +
        (getSegmentFeatures segment).swcFeatureCount : ℤ) : ℚ) ≠ 0 := by
  intro hq
  apply h
  left
  exact_mod_cast hq

/-- C8 witness: on the segment `把` with default thresholds the guard
fails and the divisor is nonzero. -/
theorem c8_no_division_witness :
    ¬((getSegmentFeatures (("把").data)).cantoFeatureCount +
        (getSegmentFeatures (("把").data)).swcFeatureCount = 0 ∨
      ((getSegmentFeatures (("把").data)).cantoFeatureCount ≤
          ⌊defaultConfig.cantoTolerance * ((getSegmentFeatures (("把").data)).length : ℚ)⌋ ∧
        (getSegmentFeatures (("把").data)).swcFeatureCount ≤
          ⌊defaultConfig.swcTolerance * ((getSegmentFeatures (("把").data)).length : ℚ)⌋)) ∧
    (((getSegmentFeatures (("把").data)).cantoFeatureCount +
        (getSegmentFeatures (("把").data)).swcFeatureCount : ℤ) : ℚ) ≠ 0 :=
  ⟨by decide, c8_no_division_by_zero defaultConfig (("把").data) (by decide)⟩

/-- C9: when the quote-pair pattern matches nowhere in the document, the
Quote Separator returns the document unchanged as matrix and the empty
string as quotes. -/
theorem c9_no_quote_identity (document : List Char)
    (h : hasQuote document = false) :
    separateQuotes document = (document, []) := by
  unfold separateQuotes
  have hsep : sepQuotes document = (document, []) := by
    unfold sepQuotes
    exact sepQuotesF_no_match document.length document le_rfl h
  rw [hsep]
  rfl

/-- C9 witness: a concrete quote-free document. -/
theorem c9_no_quote_witness :
    separateQuotes (("唔該abc").data) = ((("唔該abc").data), []) :=
  c9_no_quote_identity (("唔該abc").data) (by decide)

/-- C10 counterexample: in `「點《x》樣」` neither feature pattern matches
anywhere, yet with quote separation enabled the all-quote branch re-scans
`ALL_QUOTEMARKS_RE.sub("", quotes)`, deleting `《x》` and creating the new
adjacency `點樣`, which is a Cantonese feature: judge returns Cantonese,
not Neutral. -/
theorem c10_counterexample :
    searchB cantoFeaturePat (("「點《x》樣」").data) = false ∧
    searchB swcFeaturePat (("「點《x》樣」").data) = false ∧
    judge quoteConfig ("「點《x》樣」") = Label.Cantonese :=
  ⟨by decide, by decide, by decide⟩

/-- C10 amended: with quote separation disabled, a document in which
neither feature pattern matches anywhere is judged Neutral under both
split-segment values and all threshold values: every split piece is a
contiguous substring, its feature counts are zero (every exclusion
alternative contains a feature character, so exclusions cannot match
either), and the `total == 0` guard yields Neutral everywhere. -/
theorem c10_no_feature_neutral (cfg : Config) (document : String)
    (hget : cfg.getQuote = false)
    (hc : searchB cantoFeaturePat document.data = false)
    (hs : searchB swcFeaturePat document.data = false) :
    judge cfg document = Label.Neutral := by
  show judgeL cfg document.data = Label.Neutral
  unfold judgeL
  rw [hget]
  rw [if_neg (by simp)]
  exact judgeDocument_neutral cfg document.data hc hs

/-- C10 witness: the counterexample document judged with quote separation
disabled is Neutral under the default configuration. -/
theorem c10_no_feature_witness : judge defaultConfig ("「點《x》樣」") = Label.Neutral :=
  c10_no_feature_neutral defaultConfig ("「點《x》樣」") rfl (by decide) (by decide)

end Canto
